import Mathlib

/-!
Verification of the parameter lowering engine (`src/analysis/function_parameters.rs`)
and the special-function generator (`src/codegen/special_functions.rs`) of the
`gir` binding generator.

The analysis pass is embedded shallowly: Rust `Vec` push sequences become list
appends, the fallible string-slicing in `is_length` (which can panic on a
non-char-boundary byte index) is modelled with `Except`, and machine integers
are `Nat` with explicit wrapping where the source can overflow.

External collaborators that are not part of the two analysed source files
(the type classifier `ConversionType::of`, `rust_type`, `RefMode`,
`can_as_return`, the configuration machinery, `nameutil::mangle_keywords`,
and the library type table) are carried as components of the environment or
modelled from the spec, as indicated by the doc comments.
-/

abbrev TypeId := Nat

inductive ParameterDirection where
  | In
  | Out
  | InOut
  | Return
deriving DecidableEq, Repr, Inhabited

inductive Transfer where
  | None
  | Container
  | Full
deriving DecidableEq, Repr, Inhabited

inductive ParameterScope where
  | None
  | Call
  | Async
  | Notified
deriving DecidableEq, Repr, Inhabited

inductive RefMode where
  | None
  | ByRef
  | ByRefMut
  | ByRefImmut
  | ByRefConst
deriving DecidableEq, Repr, Inhabited

/-- Conversion categories returned by the Type Classifier (`ConversionType::of`,
an external collaborator of the analysed file). -/
inductive ConversionType where
  | Direct
  | Scalar
  | Pointer
  | Borrow
  | Unknown
deriving DecidableEq, Repr, Inhabited

/-- The fundamental-type variants consulted by `has_length`; variants not
distinguished by the analysed code are collapsed into representatives. -/
inductive Fundamental where
  | Utf8
  | Filename
  | OsString
  | Boolean
  | Int
  | UInt
  | Pointer
deriving DecidableEq, Repr, Inhabited

/-- The library `Type` enum, restricted to the shape information the analysed
code consults: the match arms of `has_length`, and the `is_interface` /
`is_class` / `is_final_type` queries used for the `to_glib_extra` suffix.
Payloads not read by the analysed code are kept as plain type ids. -/
inductive LType where
  | Fundamental (fund : Fundamental)
  | Alias (typ : TypeId)
  | CArray (t : TypeId)
  | FixedArray (t : TypeId) (size : Nat)
  | Array (t : TypeId)
  | PtrArray (t : TypeId)
  | List (t : TypeId)
  | SList (t : TypeId)
  | HashTable (k : TypeId) (v : TypeId)
  | Class (final_type : Bool)
  | Interface (final_type : Bool)
  | Other
deriving DecidableEq, Repr, Inhabited

/-- Modelled from the spec: the type environment answers whether a type is an
interface. -/
def LType.is_interface : LType → Bool
  | .Interface _ => true
  | _ => false

/-- Modelled from the spec: the type environment answers whether a type is a
class. -/
def LType.is_class : LType → Bool
  | .Class _ => true
  | _ => false

/-- Modelled from the spec: the type environment answers whether a type is
declared final/sealed. -/
def LType.is_final_type : LType → Bool
  | .Class f => f
  | .Interface f => f
  | _ => false

/-- `library::Parameter`: the native descriptor of one function parameter,
with the fields read by the analysed code. `array_length`, `closure` and
`destroy` are `u32` indices in the source, kept as `Nat`. -/
structure Parameter where
  name : String
  c_type : String
  typ : TypeId
  instance_parameter : Bool
  direction : ParameterDirection
  nullable : Bool
  transfer : Transfer
  caller_allocates : Bool
  is_error : Bool
  scope : ParameterScope
  array_length : Option Nat
  closure : Option Nat
  destroy : Option Nat
  allow_none : Bool
deriving DecidableEq, Repr, Inhabited

/-- Modelled from the spec: the per-parameter configuration entry, keyed by
parameter name, carrying the nullability override, the "treat as immutable"
flag, the explicit `length_of` link, and the type-override
(`override_string_type_parameter` collapses to the forced type id). -/
structure ConfigParameter where
  ident : String
  constant : Bool
  nullable : Option Bool
  length_of : Option String
  string_type : Option TypeId
deriving DecidableEq, Repr, Inhabited

/-- Modelled from the spec: a per-function configuration block holding its
parameter entries. -/
structure ConfigFunction where
  parameters : List ConfigParameter
deriving DecidableEq, Repr, Inhabited

/-- The read-only environment threaded through the pass. The library type
table backs `env.type_`; the remaining fields are the external collaborators
of §6 of the spec (type classifier, printable-type formatter, out-parameter
promotion predicate, reference-mode rule), which live outside the analysed
source files and are therefore carried abstractly. -/
structure Env where
  library : List LType
  conversion_of : TypeId → ConversionType
  rust_type_str : TypeId → String
  can_as_return : Parameter → Bool
  ref_mode_of : Parameter → Bool → Bool → RefMode

/-- `env.type_` / `env.library.type_`: resolve a type id in the library table;
unknown ids degrade to an opaque type. -/
def Env.type_ (env : Env) (typ : TypeId) : LType :=
  env.library.getD typ .Other

structure RustParameter where
  ind_c : Nat
  name : String
  typ : TypeId
  allow_none : Bool
deriving DecidableEq, Repr, Inhabited

structure CParameter where
  name : String
  typ : TypeId
  c_type : String
  instance_parameter : Bool
  direction : ParameterDirection
  nullable : Bool
  transfer : Transfer
  caller_allocates : Bool
  is_error : Bool
  scope : ParameterScope
  user_data_index : Option Nat
  destroy_index : Option Nat
  ref_mode : RefMode
deriving DecidableEq, Repr, Inhabited

inductive TransformationType where
  | ToGlibDirect (name : String)
  | ToGlibScalar (name : String) (nullable : Bool)
  | ToGlibPointer (name : String) (instance_parameter : Bool) (transfer : Transfer)
      (ref_mode : RefMode) (to_glib_extra : String) (explicit_target_type : String)
      (pointer_cast : String) (in_trait : Bool) (nullable : Bool)
  | ToGlibBorrow
  | ToGlibUnknown (name : String)
  | Length (array_name : String) (array_length_name : String) (array_length_type : String)
  | IntoRaw (name : String)
  | ToSome (name : String)
deriving DecidableEq, Repr, Inhabited

/-- Discriminator for the `Length` variant (the length-link step). -/
def TransformationType.is_length_step : TransformationType → Bool
  | .Length _ _ _ => true
  | _ => false

structure Transformation where
  ind_c : Nat
  ind_rust : Option Nat
  transformation_type : TransformationType
deriving DecidableEq, Repr, Inhabited

structure Parameters where
  rust_parameters : List RustParameter
  c_parameters : List CParameter
  transformations : List Transformation
deriving DecidableEq, Repr, Inhabited

/-- `Parameters::new`: the capacity hint only pre-allocates in the source. -/
def Parameters.new (_capacity : Nat) : Parameters :=
  { rust_parameters := [], c_parameters := [], transformations := [] }

/-- UTF-8 encoding of one character (Rust strings are UTF-8 byte sequences and
the analysed code indexes them by byte). -/
def char_utf8 (c : Char) : List Nat :=
  let n := c.toNat
  if n < 128 then [n]
  else if n < 2048 then [192 + n / 64, 128 + n % 64]
  else if n < 65536 then [224 + n / 4096, 128 + n / 64 % 64, 128 + n % 64]
  else [240 + n / 262144, 128 + n / 4096 % 64, 128 + n / 64 % 64, 128 + n % 64]

/-- The UTF-8 bytes of a string, as Rust's `str` stores it. -/
def str_bytes (s : String) : List Nat :=
  (s.data.map char_utf8).flatten

/-- Rust `str::is_char_boundary`: index 0 and the end are boundaries; an
interior index is a boundary exactly when its byte is not a continuation
byte (`0x80..0xBF`). -/
def is_char_boundary (bs : List Nat) (i : Nat) : Bool :=
  if i == 0 then true
  else
    match bs[i]? with
    | some b => decide (b < 128) || decide (192 ≤ b)
    | none => i == bs.length

/-- Rust `str::find` on a literal needle, specialised to a containment test:
does `needle` occur as a contiguous byte subsequence of the haystack? -/
def list_is_infix (needle : List Nat) : List Nat → Bool
  | [] => needle.isEmpty
  | b :: rest => needle.isPrefixOf (b :: rest) || list_is_infix needle rest

/-- Modelled from the spec: `nameutil::mangle_keywords` (external to the
analysed files) is a pure string function mapping a reserved identifier to a
safe spelling; non-keywords pass through unchanged. -/
def rust_keywords : List String :=
  ["as", "box", "break", "const", "continue", "crate", "else", "enum", "extern",
   "false", "fn", "for", "if", "impl", "in", "let", "loop", "match", "mod",
   "move", "mut", "pub", "ref", "return", "self", "static", "struct", "super",
   "trait", "true", "type", "use", "where", "while"]

/-- Modelled from the spec: the keyword mangler maps a reserved identifier to a
safe spelling (a trailing underscore) and leaves every other name unchanged. -/
def mangle_keywords (name : String) : String :=
  if rust_keywords.contains name then name ++ "_" else name

/-- Modelled from the spec: configuration overrides are keyed by parameter
name; `matched_parameters` collects every configured entry for that name
across the configured functions. -/
def matched_parameters (configured_functions : List ConfigFunction)
    (name : String) : List ConfigParameter :=
  (configured_functions.map (fun f => f.parameters.filter (fun p => p.ident == name))).flatten

/-- Modelled from the spec: `override_string_type_parameter` (external to the
analysed files) lets the first matching configuration entry force a
specialized string representation; otherwise the declared type is kept. -/
def override_string_type_parameter (typ : TypeId)
    (configured_parameters : List ConfigParameter) : TypeId :=
  ((configured_parameters.filterMap (fun p => p.string_type)).head?).getD typ

/-- `get_length_type`: build the length-link transformation step. -/
def get_length_type (env : Env) (array_name : String) (length_name : String)
    (length_typ : TypeId) : TransformationType :=
  .Length array_name length_name (env.rust_type_str length_typ)

/-- `has_length`: does a type carry an implicit length (string-like or
container-like), resolving aliases transitively? The source recursion
terminates on acyclic alias chains, whose length is bounded by the library
size; that bound is used as fuel (on a cyclic alias chain the source
diverges, the model answers `false`). -/
def has_length_fuel (env : Env) : Nat → TypeId → Bool
  | 0, _ => false
  | fuel + 1, typ =>
    match env.type_ typ with
    | .Fundamental fund =>
      match fund with
      | .Utf8 => true
      | .Filename => true
      | .OsString => true
      | _ => false
    | .CArray _ => true
    | .FixedArray _ _ => true
    | .Array _ => true
    | .PtrArray _ => true
    | .List _ => true
    | .SList _ => true
    | .HashTable _ _ => true
    | .Alias aliased => has_length_fuel env fuel aliased
    | _ => false

def has_length (env : Env) (typ : TypeId) : Bool :=
  has_length_fuel env (env.library.length + 1) typ

/-- `is_length`: the naming heuristic for length candidates. The byte slice
`&par.name[len - 3..len]` panics when `len - 3` is not a char boundary
(the end index `len` always is one); the panic is modelled as `Except.error`. -/
def is_length (par : Parameter) : Except String Bool :=
  if par.direction ≠ .In then .ok false
  else
    let bs := str_bytes par.name
    let len := bs.length
    if 3 ≤ len then
      if is_char_boundary bs (len - 3) then
        if bs.drop (len - 3) == str_bytes "len" then .ok true
        else if list_is_infix (str_bytes "length") bs then .ok true
        else .ok false
      else .error "byte index is not a char boundary"
    else if list_is_infix (str_bytes "length") bs then .ok true
    else .ok false

/-- `detect_length`: the heuristic array detection. `pos - 1` is a `usize`
subtraction; its release-build wrapping semantics is modelled explicitly
modulo `2 ^ 64` (at `pos = 0` the wrapped index is out of range and the
lookup yields `none`). -/
def detect_length (env : Env) (pos : Nat) (par : Parameter)
    (parameters : List Parameter) : Except String (Option String) :=
  match is_length par with
  | .error e => .error e
  | .ok false => .ok none
  | .ok true =>
    match parameters[(pos + (2 ^ 64 - 1)) % 2 ^ 64]? with
    | some p => if has_length env p.typ then .ok (some p.name) else .ok none
    | none => .ok none

/-- `async_param_to_remove`: `name == "user_data" || name.ends_with("data")`
(byte-suffix test, as in Rust). -/
def async_param_to_remove (name : String) : Bool :=
  name == "user_data" || (str_bytes "data").isSuffixOf (str_bytes name)

/-- The working name of a parameter: instance receivers keep their declared
name, every other name passes through keyword mangling (lines 166-170). -/
def param_rust_name (par : Parameter) : String :=
  if par.instance_parameter then par.name else mangle_keywords par.name

/-- The final nullability: the first configured override, else the declared
nullability (lines 225-229). -/
def resolved_nullable (configured_parameters : List ConfigParameter)
    (par : Parameter) : Bool :=
  ((configured_parameters.filterMap (fun p => p.nullable)).head?).getD par.nullable

/-- The `array_lengths` map of lines 160-163: length position (a `u32`, so
the lookup key is `pos` truncated to 32 bits) maps to the array name; on
duplicate keys the `HashMap` collect keeps the last insertion. -/
def array_lengths_get (fps : List Parameter) (pos : Nat) : Option String :=
  ((fps.filter (fun p => p.array_length == some (pos % 2 ^ 32))).map
    (fun p => p.name)).getLast?

/-- The array-name resolution of lines 190-199, in priority order: the first
configured `length_of` override, then the descriptor back-link table, then
(unless disabled) the naming heuristic. -/
def resolve_array_name (env : Env) (configured_parameters : List ConfigParameter)
    (disable_length_detect : Bool) (function_parameters : List Parameter)
    (pos : Nat) (par : Parameter) : Except String (Option String) :=
  match (configured_parameters.filterMap (fun p => p.length_of)).head? with
  | some a => .ok (some a)
  | none =>
    match array_lengths_get function_parameters pos with
    | some a => .ok (some a)
    | none =>
      if !disable_length_detect then
        detect_length env pos par function_parameters
      else .ok none

/-- The per-parameter additions computed by one iteration of the `analyze`
loop: the optional length-link step (pushed first in the source, line 209),
the native parameter (line 246), the optional surface parameter (line 258),
and the primary transformation step (line 324). -/
structure ParamOut where
  length_trans : List Transformation
  c_par : CParameter
  rust_par : Option RustParameter
  primary : Transformation
deriving DecidableEq, Repr

/-- One iteration of the loop of `analyze` (lines 165-325). `ind_c` and
`rust_len` are the current lengths of the native and surface lists (lines
177-178). The source's single `if let Some(array_name)` block (lines
200-210), which both emits the length step and clears the surface flag, is
split into two selections on the same resolved option; the in-place variant
rewrite of lines 298-323 is expressed as a rebuild, as in the source's own
design note. -/
def analyze_param (env : Env) (configured_functions : List ConfigFunction)
    (disable_length_detect async_func in_trait : Bool)
    (function_parameters : List Parameter) (pos : Nat) (par : Parameter)
    (ind_c : Nat) (rust_len : Nat) : Except String ParamOut :=
  let name := param_rust_name par
  let configured_parameters := matched_parameters configured_functions name
  let c_type := par.c_type
  let typ := override_string_type_parameter par.typ configured_parameters
  let add0 : Bool :=
    match par.direction with
    | .In => true
    | .InOut => true
    | .Return => false
    | .Out => !env.can_as_return par && !async_func
  let add1 : Bool :=
    if async_func && async_param_to_remove par.name then false else add0
  match resolve_array_name env configured_parameters disable_length_detect
      function_parameters pos par with
  | .error e => .error e
  | .ok array_name =>
    let length_trans : List Transformation :=
      match array_name with
      | some an =>
        [{ ind_c := ind_c, ind_rust := none,
           transformation_type := get_length_type env (mangle_keywords an) par.name typ }]
      | none => []
    let add_rust_parameter : Bool := if array_name.isSome then false else add1
    let conversion := env.conversion_of typ
    let caller_allocates : Bool :=
      if conversion == .Direct || conversion == .Scalar then false
      else par.caller_allocates
    let transfer : Transfer :=
      if conversion == .Direct || conversion == .Scalar then .None
      else par.transfer
    let immutable := configured_parameters.any (fun p => p.constant)
    let ref_mode := env.ref_mode_of par immutable (in_trait && par.instance_parameter)
    let nullable := resolved_nullable configured_parameters par
    let c_par : CParameter :=
      { name := name, typ := typ, c_type := c_type,
        instance_parameter := par.instance_parameter,
        direction := par.direction, transfer := transfer,
        caller_allocates := caller_allocates, nullable := nullable,
        ref_mode := ref_mode, is_error := par.is_error, scope := par.scope,
        user_data_index := par.closure, destroy_index := par.destroy }
    let rust_par : Option RustParameter :=
      if add_rust_parameter then
        some { ind_c := ind_c, name := name, typ := typ, allow_none := par.allow_none }
      else none
    let ind_rust : Option Nat :=
      if add_rust_parameter then some rust_len else none
    let type_ := env.type_ par.typ
    let first_case : Bool :=
      par.instance_parameter || !nullable ||
        (!type_.is_interface && !type_.is_class)
    let trans_nullable : Bool := if first_case then false else nullable
    let to_glib_extra : String :=
      if first_case then ""
      else if !type_.is_final_type then ".as_ref()" else ""
    let transformation_type : TransformationType :=
      match env.conversion_of typ with
      | .Direct => .ToGlibDirect name
      | .Scalar => .ToGlibScalar name nullable
      | .Pointer =>
        .ToGlibPointer name par.instance_parameter transfer ref_mode
          to_glib_extra "" "" in_trait trans_nullable
      | .Borrow => .ToGlibBorrow
      | .Unknown => .ToGlibUnknown name
    let transformation_type : TransformationType :=
      match transformation_type with
      | .ToGlibDirect n =>
        if async_func && n == "callback" then .ToSome n else .ToGlibDirect n
      | .ToGlibUnknown n =>
        if async_func && n == "callback" then .ToSome n else .ToGlibUnknown n
      | .ToGlibPointer n ip trf rm ex ett pc it nb =>
        if async_func && n == "user_data" then .IntoRaw n
        else .ToGlibPointer n ip trf rm ex ett pc it nb
      | other => other
    .ok { length_trans := length_trans, c_par := c_par, rust_par := rust_par,
          primary := { ind_c := ind_c, ind_rust := ind_rust,
                       transformation_type := transformation_type } }

/-- Push one iteration's additions, in the source's push order. -/
def Parameters.push (acc : Parameters) (out : ParamOut) : Parameters :=
  { rust_parameters := acc.rust_parameters ++ out.rust_par.toList,
    c_parameters := acc.c_parameters ++ [out.c_par],
    transformations := acc.transformations ++ (out.length_trans ++ [out.primary]) }

/-- The `enumerate` loop of `analyze`: `pos` is the running enumeration
index. -/
def analyze_loop (env : Env) (configured_functions : List ConfigFunction)
    (disable_length_detect async_func in_trait : Bool)
    (function_parameters : List Parameter) :
    Nat → List Parameter → Parameters → Except String Parameters
  | _, [], acc => .ok acc
  | pos, par :: rest, acc =>
    match analyze_param env configured_functions disable_length_detect async_func
        in_trait function_parameters pos par acc.c_parameters.length
        acc.rust_parameters.length with
    | .error e => .error e
    | .ok out =>
      analyze_loop env configured_functions disable_length_detect async_func
        in_trait function_parameters (pos + 1) rest (acc.push out)

/-- `analyze` (lines 149-328): lower one native parameter list. A panic of the
source (the byte-slice panic in `is_length`) surfaces as `Except.error`. -/
def analyze (env : Env) (function_parameters : List Parameter)
    (configured_functions : List ConfigFunction)
    (disable_length_detect async_func in_trait : Bool) : Except String Parameters :=
  analyze_loop env configured_functions disable_length_detect async_func in_trait
    function_parameters 0 function_parameters
    (Parameters.new function_parameters.length)

/-- `Parameters::analyze_return` (lines 124-145): the return-value post-pass. -/
def Parameters.analyze_return (env : Env) (self : Parameters)
    (ret : Option Parameter) : Parameters :=
  match ret.bind (fun r => r.array_length) with
  | none => self
  | some array_length =>
    let ind_c := array_length
    match self.c_parameters[ind_c]? with
    | none => self
    | some par =>
      { self with
          transformations := self.transformations ++
            [{ ind_c := ind_c, ind_rust := none,
               transformation_type := get_length_type env "" par.name par.typ }] }

/-! ## The special-function generator (`src/codegen/special_functions.rs`)

The output writer is modelled as the list of chunks written to it; `writeln!`
appends its text with a trailing newline. Writer I/O errors are environmental
and outside the analysed logic, so the model is the success path of the
`Result`. -/

inductive FunctionType where
  | StaticStringify
deriving DecidableEq, Repr

structure SpecialInfo where
  type_ : FunctionType
deriving DecidableEq, Repr

/-- `analysis::special_functions::Infos`: the special-functions table, keyed
by the native function name. -/
structure SpecialInfos where
  functions_tbl : List (String × SpecialInfo)
deriving DecidableEq, Repr

def SpecialInfos.get (infos : SpecialInfos) (name : String) : Option SpecialInfo :=
  (infos.functions_tbl.find? (fun kv => kv.1 == name)).map (fun kv => kv.2)

inductive Visibility where
  | Public
  | Crate
  | Private
deriving DecidableEq, Repr

/-- `analysis::functions::Info`, restricted to the fields the generator
reads. -/
structure FnInfo where
  glib_name : String
  codegen_name_str : String
  visibility : Visibility
  version : Option Nat
deriving DecidableEq, Repr

/-- The codegen environment. `version_condition_lines` abstracts the external
collaborators `Version::if_stricter_than` and `version_condition` (neither is
in the analysed sources): the lines the version guard writes for the given
function version and scope version. -/
structure CodegenEnv where
  main_sys_crate_name_str : String
  version_condition_lines : Option Nat → Option Nat → List String

/-- The body written by `generate_static_to_str` (the `writeln!` template of
lines 45-63, with the format arguments substituted). -/
def static_to_str_body (visibility rust_fn_name ns glib_fn_name : String) : String :=
  "\t" ++ visibility ++ "fn " ++ rust_fn_name ++ "<\x27a>(self) -> &\x27a str \x7b\n" ++
  "\t\tunsafe \x7b\n" ++
  "\t\t\tCStr::from_ptr(\n" ++
  "\t\t\t\t" ++ ns ++ "::" ++ glib_fn_name ++ "(self.into_glib())\n" ++
  "\t\t\t\t\t.as_ref()\n" ++
  "\t\t\t\t\t.expect(\"" ++ glib_fn_name ++ " returned NULL\"),\n" ++
  "\t\t\t)\n" ++
  "\t\t\t.to_str()\n" ++
  "\t\t\t.expect(\"" ++ glib_fn_name ++ " returned an invalid string\")\n" ++
  "\t\t\x7d\n" ++
  "\t\x7d"

/-- `generate_static_to_str` (lines 30-66): a blank line, the version guard,
then the stringify body. -/
def generate_static_to_str (w : List String) (env : CodegenEnv) (function : FnInfo)
    (scope_version : Option Nat) : List String :=
  let w := w ++ ["\n"]
  let w := w ++ env.version_condition_lines function.version scope_version
  let visibility : String :=
    match function.visibility with
    | .Public => "pub "
    | _ => ""
  w ++ [static_to_str_body visibility function.codegen_name_str
          env.main_sys_crate_name_str function.glib_name ++ "\n"]

/-- `generate` (lines 11-28): write the special-function implementation when
the function is registered, reporting whether anything was generated. -/
def generate (w : List String) (env : CodegenEnv) (function : FnInfo)
    (specials : SpecialInfos) (scope_version : Option Nat) : List String × Bool :=
  match specials.get function.glib_name with
  | some special =>
    match special.type_ with
    | .StaticStringify => (generate_static_to_str w env function scope_version, true)
  | none => (w, false)

/-! ## Shape of one loop iteration -/

/-- Every addition of one iteration carries the native index that was current
when it was pushed: length-link steps and the primary step use `ind_c`, the
surface parameter (when added) records `ind_c`, and the primary step's
surface index is either absent or the current surface-list length (and then a
surface parameter was added). The primary step is never a length-link. -/
theorem analyze_param_shape (env : Env) (cfg : List ConfigFunction)
    (d a t : Bool) (fps : List Parameter) (pos : Nat) (par : Parameter)
    (ic rl : Nat) (out : ParamOut)
    (h : analyze_param env cfg d a t fps pos par ic rl = .ok out) :
    (∀ tr ∈ out.length_trans, tr.ind_c = ic ∧ tr.ind_rust = none ∧
        tr.transformation_type.is_length_step = true) ∧
    out.primary.ind_c = ic ∧
    out.primary.transformation_type.is_length_step = false ∧
    (out.primary.ind_rust = none ∨
      (out.primary.ind_rust = some rl ∧ out.rust_par.isSome = true)) ∧
    (∀ rp, out.rust_par = some rp → rp.ind_c = ic) := by
  simp only [analyze_param] at h
  split at h
  · exact absurd h (by simp)
  next an heq =>
    injection h with h
    subst h
    refine ⟨?_, rfl, ?_, ?_, ?_⟩
    · rcases an with _ | a <;>
        simp [get_length_type, TransformationType.is_length_step]
    · cases hc : env.conversion_of (override_string_type_parameter par.typ
          (matched_parameters cfg (param_rust_name par))) <;>
        simp only [hc] <;>
        first
          | rfl
          | (split <;> rfl)
    · dsimp only
      repeat' split
      all_goals simp
    · intro rp hrp
      dsimp only at hrp
      repeat' split at hrp
      all_goals
        first
          | (exact Option.noConfusion hrp)
          | (rw [Option.some_inj] at hrp; subst hrp; rfl)

/-- Frame lemma for the loop: it only appends to the three lists, adds one
native parameter per processed descriptor, and every appended transformation
or surface parameter refers to a native index at or beyond the native-list
length at entry. -/
theorem analyze_loop_frame (env : Env) (cfg : List ConfigFunction)
    (d a t : Bool) (fps : List Parameter) :
    ∀ (l : List Parameter) (pos : Nat) (acc ps : Parameters),
      analyze_loop env cfg d a t fps pos l acc = .ok ps →
      ∃ cs rs ts,
        ps.c_parameters = acc.c_parameters ++ cs ∧
        ps.rust_parameters = acc.rust_parameters ++ rs ∧
        ps.transformations = acc.transformations ++ ts ∧
        cs.length = l.length ∧
        (∀ tr ∈ ts, acc.c_parameters.length ≤ tr.ind_c) ∧
        (∀ rp ∈ rs, acc.c_parameters.length ≤ rp.ind_c) := by
  intro l
  induction l with
  | nil =>
    intro pos acc ps h
    simp only [analyze_loop] at h
    injection h with h
    subst h
    exact ⟨[], [], [], by simp, by simp, by simp, rfl, by simp, by simp⟩
  | cons par rest ih =>
    intro pos acc ps h
    simp only [analyze_loop] at h
    split at h
    · exact absurd h (by simp)
    next out hout =>
      obtain ⟨hlt, hpc, _, _, hru⟩ := analyze_param_shape env cfg d a t fps pos par
        acc.c_parameters.length acc.rust_parameters.length out hout
      obtain ⟨cs, rs, ts, h1, h2, h3, h4, h5, h6⟩ := ih (pos + 1) (acc.push out) ps h
      refine ⟨out.c_par :: cs, out.rust_par.toList ++ rs,
        (out.length_trans ++ [out.primary]) ++ ts, ?_, ?_, ?_, ?_, ?_, ?_⟩
      · simpa [Parameters.push, List.append_assoc] using h1
      · simpa [Parameters.push, List.append_assoc] using h2
      · simpa [Parameters.push, List.append_assoc] using h3
      · simpa using h4
      · intro tr htr
        rcases List.mem_append.1 htr with htr | htr
        · rcases List.mem_append.1 htr with htr | htr
          · exact le_of_eq (hlt tr htr).1.symm
          · rcases List.mem_singleton.1 htr with rfl
            exact le_of_eq hpc.symm
        · have := h5 tr htr
          simp only [Parameters.push, List.length_append, List.length_cons] at this
          omega
      · intro rp hrp
        rcases List.mem_append.1 hrp with hrp | hrp
        · have : out.rust_par = some rp := by
            rcases hout2 : out.rust_par with _ | rp' <;> simp [hout2] at hrp
            · simp [hrp, hout2]
          exact le_of_eq (hru rp this).symm
        · have := h6 rp hrp
          simp only [Parameters.push, List.length_append, List.length_cons] at this
          omega

/-- The loop preserves the index-bound invariant of the transformation list:
native indices stay below the native-list length and surface indices below
the surface-list length. -/
theorem analyze_loop_inv (env : Env) (cfg : List ConfigFunction)
    (d a t : Bool) (fps : List Parameter) :
    ∀ (l : List Parameter) (pos : Nat) (acc ps : Parameters),
      analyze_loop env cfg d a t fps pos l acc = .ok ps →
      (∀ tr ∈ acc.transformations, tr.ind_c < acc.c_parameters.length ∧
        ∀ ir, tr.ind_rust = some ir → ir < acc.rust_parameters.length) →
      (∀ tr ∈ ps.transformations, tr.ind_c < ps.c_parameters.length ∧
        ∀ ir, tr.ind_rust = some ir → ir < ps.rust_parameters.length) := by
  intro l
  induction l with
  | nil =>
    intro pos acc ps h hinv
    simp only [analyze_loop] at h
    injection h with h
    subst h
    exact hinv
  | cons par rest ih =>
    intro pos acc ps h hinv
    simp only [analyze_loop] at h
    split at h
    · exact absurd h (by simp)
    next out hout =>
      obtain ⟨hlt, hpc, _, hpr, _⟩ := analyze_param_shape env cfg d a t fps pos par
        acc.c_parameters.length acc.rust_parameters.length out hout
      refine ih (pos + 1) (acc.push out) ps h ?_
      intro tr htr
      have hclen : (acc.push out).c_parameters.length = acc.c_parameters.length + 1 := by
        simp [Parameters.push]
      have hrlen : acc.rust_parameters.length ≤ (acc.push out).rust_parameters.length := by
        simp [Parameters.push]
      simp only [Parameters.push] at htr
      rcases List.mem_append.1 htr with htr | htr
      · obtain ⟨hc, hr⟩ := hinv tr htr
        constructor
        · omega
        · intro ir hir
          have := hr ir hir
          omega
      · rcases List.mem_append.1 htr with htr | htr
        · obtain ⟨hc, hn, _⟩ := hlt tr htr
          constructor
          · omega
          · intro ir hir
            rw [hn] at hir
            exact Option.noConfusion hir
        · rcases List.mem_singleton.1 htr with rfl
          constructor
          · omega
          · intro ir hir
            rcases hpr with hn | ⟨hs, hsome⟩
            · rw [hn] at hir
              exact Option.noConfusion hir
            · rw [hs] at hir
              rw [Option.some_inj] at hir
              subst hir
              have : out.rust_par.toList.length = 1 := by
                rcases ho : out.rust_par with _ | rp' <;> simp [ho] at hsome ⊢
              simp only [Parameters.push, List.length_append, this]
              omega

/-- Per-index characterization of the loop: the `i`-th processed descriptor
gives rise to exactly the additions computed by `analyze_param` at native
index `pos0 + i` — its native parameter sits at that index, the
transformations carrying that native index are exactly its optional
length-link followed by its primary step, and a surface parameter with that
native index exists exactly when the iteration added one. -/
theorem analyze_loop_at (env : Env) (cfg : List ConfigFunction)
    (d a t : Bool) (fps : List Parameter) :
    ∀ (l : List Parameter) (pos0 : Nat) (acc ps : Parameters),
      analyze_loop env cfg d a t fps pos0 l acc = .ok ps →
      pos0 = acc.c_parameters.length →
      (∀ tr ∈ acc.transformations, tr.ind_c < acc.c_parameters.length) →
      (∀ rp ∈ acc.rust_parameters, rp.ind_c < acc.c_parameters.length) →
      ∀ (i : Nat) (par : Parameter), l[i]? = some par →
        ∃ rl out,
          analyze_param env cfg d a t fps (pos0 + i) par (pos0 + i) rl = .ok out ∧
          ps.c_parameters[pos0 + i]? = some out.c_par ∧
          ps.transformations.filter (fun tr => tr.ind_c == pos0 + i) =
            out.length_trans ++ [out.primary] ∧
          (∀ rp ∈ ps.rust_parameters, rp.ind_c = pos0 + i → out.rust_par = some rp) ∧
          (∀ rp, out.rust_par = some rp → rp ∈ ps.rust_parameters) := by
  intro l
  induction l with
  | nil =>
    intro pos0 acc ps h hpos hti hri i par hpar
    exact absurd hpar (by simp)
  | cons par0 rest ih =>
    intro pos0 acc ps h hpos hti hri i par hpar
    simp only [analyze_loop] at h
    split at h
    · exact absurd h (by simp)
    next out hout =>
      obtain ⟨hlt, hpc, _, _, hru⟩ := analyze_param_shape env cfg d a t fps pos0 par0
        acc.c_parameters.length acc.rust_parameters.length out hout
      obtain ⟨cs, rs, ts, hc, hr, htr, _, hts, hrs⟩ :=
        analyze_loop_frame env cfg d a t fps rest (pos0 + 1) (acc.push out) ps h
      have hpushc : (acc.push out).c_parameters = acc.c_parameters ++ [out.c_par] := rfl
      have hpushr : (acc.push out).rust_parameters =
          acc.rust_parameters ++ out.rust_par.toList := rfl
      have hpusht : (acc.push out).transformations =
          acc.transformations ++ (out.length_trans ++ [out.primary]) := rfl
      rcases i with _ | j
      · -- the head descriptor: this very iteration
        simp only [List.getElem?_cons_zero, Option.some_inj] at hpar
        subst hpar
        rw [← hpos] at hout
        refine ⟨acc.rust_parameters.length, out, by simpa using hout, ?_, ?_, ?_, ?_⟩
        · rw [hc, hpushc, List.append_assoc]
          rw [List.getElem?_append_right (by omega)]
          simp [hpos]
        · rw [htr, hpusht, List.filter_append, List.filter_append]
          have e1 : acc.transformations.filter
              (fun tr => tr.ind_c == pos0 + 0) = [] := by
            rw [List.filter_eq_nil_iff]
            intro tr htr'
            have := hti tr htr'
            simp only [beq_iff_eq]
            omega
          have e2 : (out.length_trans ++ [out.primary]).filter
              (fun tr => tr.ind_c == pos0 + 0) =
              out.length_trans ++ [out.primary] := by
            rw [List.filter_eq_self]
            intro tr htr'
            rcases List.mem_append.1 htr' with h' | h'
            · have := (hlt tr h').1
              simp only [beq_iff_eq]
              omega
            · rcases List.mem_singleton.1 h' with rfl
              simp only [beq_iff_eq]
              omega
          have e3 : ts.filter (fun tr => tr.ind_c == pos0 + 0) = [] := by
            rw [List.filter_eq_nil_iff]
            intro tr htr'
            have := hts tr htr'
            simp only [hpushc, List.length_append, List.length_cons] at this
            simp only [beq_iff_eq]
            omega
          rw [e1, e2, e3, List.nil_append, List.append_nil]
        · intro rp hrp hind
          rw [hr, hpushr] at hrp
          rcases List.mem_append.1 hrp with h' | h'
          · rcases List.mem_append.1 h' with h'' | h''
            · have := hri rp h''
              omega
            · rcases ho : out.rust_par with _ | rp' <;> rw [ho] at h''
              · simp at h''
              · simp only [Option.toList_some, List.mem_singleton] at h''
                subst h''
                rfl
          · have := hrs rp h'
            simp only [hpushc, List.length_append, List.length_cons] at this
            omega
        · intro rp hrp
          rw [hr, hpushr]
          rcases ho : out.rust_par with _ | rp' <;> rw [ho] at hrp
          · exact Option.noConfusion hrp
          · rw [Option.some_inj] at hrp
            subst hrp
            simp [ho]
      · -- a later descriptor: recurse on the tail
        simp only [List.getElem?_cons_succ] at hpar
        have hinv1 : pos0 + 1 = (acc.push out).c_parameters.length := by
          simp [hpushc, hpos]
        have hinv2 : ∀ tr ∈ (acc.push out).transformations,
            tr.ind_c < (acc.push out).c_parameters.length := by
          intro tr htr'
          rw [hpusht] at htr'
          simp only [hpushc, List.length_append, List.length_cons]
          rcases List.mem_append.1 htr' with h' | h'
          · have := hti tr h'
            omega
          · rcases List.mem_append.1 h' with h'' | h''
            · have := (hlt tr h'').1
              omega
            · rcases List.mem_singleton.1 h'' with rfl
              omega
        have hinv3 : ∀ rp ∈ (acc.push out).rust_parameters,
            rp.ind_c < (acc.push out).c_parameters.length := by
          intro rp hrp'
          rw [hpushr] at hrp'
          simp only [hpushc, List.length_append, List.length_cons]
          rcases List.mem_append.1 hrp' with h' | h'
          · have := hri rp h'
            omega
          · rcases ho : out.rust_par with _ | rp' <;> rw [ho] at h'
            · simp at h'
            · simp only [Option.toList_some, List.mem_singleton] at h'
              subst h'
              have := hru rp ho
              omega
        have heq : pos0 + (j + 1) = (pos0 + 1) + j := by omega
        rw [heq]
        exact ih (pos0 + 1) (acc.push out) ps h hinv1 hinv2 hinv3 j par hpar

/-- `analyze_loop_at`, specialised to a full run of `analyze`. -/
theorem analyze_at (env : Env) (cfg : List ConfigFunction) (d a t : Bool)
    (fps : List Parameter) (ps : Parameters) (pos : Nat) (par : Parameter)
    (h : analyze env fps cfg d a t = .ok ps)
    (hpar : fps[pos]? = some par) :
    ∃ rl out,
      analyze_param env cfg d a t fps pos par pos rl = .ok out ∧
      ps.c_parameters[pos]? = some out.c_par ∧
      ps.transformations.filter (fun tr => tr.ind_c == pos) =
        out.length_trans ++ [out.primary] ∧
      (∀ rp ∈ ps.rust_parameters, rp.ind_c = pos → out.rust_par = some rp) ∧
      (∀ rp, out.rust_par = some rp → rp ∈ ps.rust_parameters) := by
  rw [analyze] at h
  have := analyze_loop_at env cfg d a t fps fps 0 (Parameters.new fps.length) ps h
    rfl (by simp [Parameters.new]) (by simp [Parameters.new]) pos par hpar
  simpa using this

/-- Direct/Scalar classification erases the ownership flags of the native
parameter (lines 212-219). -/
theorem analyze_param_scalar_erases (env : Env) (cfg : List ConfigFunction)
    (d a t : Bool) (fps : List Parameter) (pos : Nat) (par : Parameter)
    (ic rl : Nat) (out : ParamOut)
    (h : analyze_param env cfg d a t fps pos par ic rl = .ok out)
    (hc : env.conversion_of (override_string_type_parameter par.typ
        (matched_parameters cfg (param_rust_name par))) = .Direct ∨
      env.conversion_of (override_string_type_parameter par.typ
        (matched_parameters cfg (param_rust_name par))) = .Scalar) :
    out.c_par.caller_allocates = false ∧ out.c_par.transfer = .None := by
  simp only [analyze_param] at h
  split at h
  · exact absurd h (by simp)
  next an heq =>
    injection h with h
    subst h
    rcases hc with hc | hc <;> simp [hc]

/-- With the async flag set, a parameter whose raw name is `"user_data"` or
ends in `"data"` never yields a surface parameter (lines 186-188). -/
theorem analyze_param_async_removes (env : Env) (cfg : List ConfigFunction)
    (d t : Bool) (fps : List Parameter) (pos : Nat) (par : Parameter)
    (ic rl : Nat) (out : ParamOut)
    (h : analyze_param env cfg d true t fps pos par ic rl = .ok out)
    (hrm : async_param_to_remove par.name = true) :
    out.rust_par = none := by
  simp only [analyze_param] at h
  split at h
  · exact absurd h (by simp)
  next an heq =>
    injection h with h
    subst h
    rcases an with _ | an0 <;> simp [hrm]

/-- With the async flag set, a `"callback"` parameter whose primary step is
Direct or Unknown gets the `ToSome` substitution (lines 304-311). -/
theorem analyze_param_async_callback (env : Env) (cfg : List ConfigFunction)
    (d t : Bool) (fps : List Parameter) (pos : Nat) (par : Parameter)
    (ic rl : Nat) (out : ParamOut)
    (h : analyze_param env cfg d true t fps pos par ic rl = .ok out)
    (hname : param_rust_name par = "callback")
    (hc : env.conversion_of (override_string_type_parameter par.typ
        (matched_parameters cfg (param_rust_name par))) = .Direct ∨
      env.conversion_of (override_string_type_parameter par.typ
        (matched_parameters cfg (param_rust_name par))) = .Unknown) :
    out.primary.transformation_type = .ToSome "callback" := by
  simp only [analyze_param] at h
  split at h
  · exact absurd h (by simp)
  next an heq =>
    injection h with h
    subst h
    rw [hname] at hc
    rcases hc with hc | hc <;> simp [hc, hname]

/-- With the async flag set, a `"user_data"` parameter whose primary step is
a Pointer conversion gets the `IntoRaw` substitution (lines 312-318). -/
theorem analyze_param_async_user_data (env : Env) (cfg : List ConfigFunction)
    (d t : Bool) (fps : List Parameter) (pos : Nat) (par : Parameter)
    (ic rl : Nat) (out : ParamOut)
    (h : analyze_param env cfg d true t fps pos par ic rl = .ok out)
    (hname : param_rust_name par = "user_data")
    (hc : env.conversion_of (override_string_type_parameter par.typ
        (matched_parameters cfg (param_rust_name par))) = .Pointer) :
    out.primary.transformation_type = .IntoRaw "user_data" := by
  simp only [analyze_param] at h
  split at h
  · exact absurd h (by simp)
  next an heq =>
    injection h with h
    subst h
    rw [hname] at hc
    simp [hc, hname]

/-- Without the async flag, no `ToSome` or `IntoRaw` substitution is ever
produced. -/
theorem analyze_param_no_async_subst (env : Env) (cfg : List ConfigFunction)
    (d t : Bool) (fps : List Parameter) (pos : Nat) (par : Parameter)
    (ic rl : Nat) (out : ParamOut)
    (h : analyze_param env cfg d false t fps pos par ic rl = .ok out) :
    ∀ s, out.primary.transformation_type ≠ .ToSome s ∧
      out.primary.transformation_type ≠ .IntoRaw s := by
  simp only [analyze_param] at h
  split at h
  · exact absurd h (by simp)
  next an heq =>
    injection h with h
    subst h
    intro s
    cases hc : env.conversion_of (override_string_type_parameter par.typ
        (matched_parameters cfg (param_rust_name par))) <;> simp [hc]

/-- When the array-name resolution yields nothing, no length-link step is
emitted, and (for a synchronous In parameter) a surface parameter is added. -/
theorem analyze_param_not_folded (env : Env) (cfg : List ConfigFunction)
    (d a t : Bool) (fps : List Parameter) (pos : Nat) (par : Parameter)
    (ic rl : Nat) (out : ParamOut)
    (h : analyze_param env cfg d a t fps pos par ic rl = .ok out)
    (hres : resolve_array_name env (matched_parameters cfg (param_rust_name par))
      d fps pos par = .ok none) :
    out.length_trans = [] ∧
    (a = false → par.direction = .In →
      out.rust_par = some ⟨ic, param_rust_name par,
        override_string_type_parameter par.typ
          (matched_parameters cfg (param_rust_name par)),
        par.allow_none⟩) := by
  simp only [analyze_param] at h
  rw [hres] at h
  dsimp only at h
  injection h with h
  subst h
  refine ⟨rfl, ?_⟩
  intro ha hdir
  subst ha
  simp [hdir]

/-- When the array-name resolution yields an array, the iteration emits the
length-link step at the current native index, adds no surface parameter, and
its primary step has no surface index (lines 200-210 and 259-261). -/
theorem analyze_param_folded (env : Env) (cfg : List ConfigFunction)
    (d a t : Bool) (fps : List Parameter) (pos : Nat) (par : Parameter)
    (ic rl : Nat) (out : ParamOut) (an : String)
    (h : analyze_param env cfg d a t fps pos par ic rl = .ok out)
    (hres : resolve_array_name env (matched_parameters cfg (param_rust_name par))
      d fps pos par = .ok (some an)) :
    out.length_trans = [⟨ic, none,
      get_length_type env (mangle_keywords an) par.name
        (override_string_type_parameter par.typ
          (matched_parameters cfg (param_rust_name par)))⟩] ∧
    out.rust_par = none ∧
    out.primary.ind_rust = none := by
  simp only [analyze_param] at h
  rw [hres] at h
  dsimp only at h
  injection h with h
  subst h
  exact ⟨rfl, by simp, by simp⟩

/-- The `to_glib_extra` suffix and nullability flag of a Pointer primary step
(lines 263-296): the `.as_ref()` suffix appears exactly for a nullable,
non-receiver parameter of interface/class type that is not final, and in the
nullable non-receiver interface/class situation the flag is set. -/
theorem analyze_param_pointer_extra (env : Env) (cfg : List ConfigFunction)
    (d a t : Bool) (fps : List Parameter) (pos : Nat) (par : Parameter)
    (ic rl : Nat) (out : ParamOut)
    (h : analyze_param env cfg d a t fps pos par ic rl = .ok out) :
    ∀ n ip trf rm ex ett pc it nb,
      out.primary.transformation_type = .ToGlibPointer n ip trf rm ex ett pc it nb →
      (ex = ".as_ref()" ↔
        (par.instance_parameter = false ∧
         resolved_nullable (matched_parameters cfg (param_rust_name par)) par = true ∧
         ((env.type_ par.typ).is_interface = true ∨
           (env.type_ par.typ).is_class = true) ∧
         (env.type_ par.typ).is_final_type = false)) ∧
      ((par.instance_parameter = false ∧
        resolved_nullable (matched_parameters cfg (param_rust_name par)) par = true ∧
        ((env.type_ par.typ).is_interface = true ∨
          (env.type_ par.typ).is_class = true)) →
        nb = true) := by
  simp only [analyze_param] at h
  split at h
  · exact absurd h (by simp)
  next an heq =>
    injection h with h
    subst h
    intro n ip trf rm ex ett pc it nb htt
    cases hc : env.conversion_of (override_string_type_parameter par.typ
        (matched_parameters cfg (param_rust_name par))) <;>
      simp only [hc] at htt
    case Direct => split at htt <;> simp at htt
    case Scalar => simp at htt
    case Borrow => simp at htt
    case Unknown => split at htt <;> simp at htt
    case Pointer =>
      split at htt
      · simp at htt
      · rw [TransformationType.ToGlibPointer.injEq] at htt
        obtain ⟨-, -, -, -, hex, -, -, -, hnb⟩ := htt
        subst hex
        subst hnb
        cases hip : par.instance_parameter <;>
          cases hnul : resolved_nullable (matched_parameters cfg (param_rust_name par)) par <;>
          cases hint : (env.type_ par.typ).is_interface <;>
          cases hcls : (env.type_ par.typ).is_class <;>
          cases hfin : (env.type_ par.typ).is_final_type <;>
          simp [hip, hnul, hint, hcls, hfin]

/-- Without the async flag, the loop emits no `ToSome` and no `IntoRaw`
step. -/
theorem analyze_loop_no_subst (env : Env) (cfg : List ConfigFunction)
    (d t : Bool) (fps : List Parameter) :
    ∀ (l : List Parameter) (pos : Nat) (acc ps : Parameters),
      analyze_loop env cfg d false t fps pos l acc = .ok ps →
      (∀ tr ∈ acc.transformations, ∀ s,
        tr.transformation_type ≠ .ToSome s ∧ tr.transformation_type ≠ .IntoRaw s) →
      (∀ tr ∈ ps.transformations, ∀ s,
        tr.transformation_type ≠ .ToSome s ∧ tr.transformation_type ≠ .IntoRaw s) := by
  intro l
  induction l with
  | nil =>
    intro pos acc ps h hacc
    simp only [analyze_loop] at h
    injection h with h
    subst h
    exact hacc
  | cons par rest ih =>
    intro pos acc ps h hacc
    simp only [analyze_loop] at h
    split at h
    · exact absurd h (by simp)
    next out hout =>
      obtain ⟨hlt, _, _, _, _⟩ := analyze_param_shape env cfg d false t fps pos par
        acc.c_parameters.length acc.rust_parameters.length out hout
      refine ih (pos + 1) (acc.push out) ps h ?_
      intro tr htr s
      simp only [Parameters.push] at htr
      rcases List.mem_append.1 htr with htr | htr
      · exact hacc tr htr s
      · rcases List.mem_append.1 htr with htr | htr
        · obtain ⟨-, -, hlen⟩ := hlt tr htr
          constructor <;> intro hcon <;> rw [hcon] at hlen <;>
            simp [TransformationType.is_length_step] at hlen
        · rcases List.mem_singleton.1 htr with rfl
          exact analyze_param_no_async_subst env cfg d t fps pos par
            acc.c_parameters.length acc.rust_parameters.length out hout s

/-- Case analysis for the return-value post-pass: it is the identity unless
the return value carries an in-range array-length back-link, in which case
exactly one length-link step (with no surface index) is appended. -/
theorem analyze_return_spec (env : Env) (ps : Parameters) (ret : Option Parameter) :
    (ret.bind (fun r => r.array_length) = none ∧ ps.analyze_return env ret = ps) ∨
    (∃ i, ret.bind (fun r => r.array_length) = some i ∧
      ((ps.c_parameters[i]? = none ∧ ps.analyze_return env ret = ps) ∨
       (∃ cp, ps.c_parameters[i]? = some cp ∧
         ps.analyze_return env ret =
           ⟨ps.rust_parameters, ps.c_parameters, ps.transformations ++
             [⟨i, none, get_length_type env "" cp.name cp.typ⟩]⟩))) := by
  rcases hb : ret.bind (fun r => r.array_length) with _ | i
  · refine Or.inl ⟨rfl, ?_⟩
    simp only [Parameters.analyze_return, hb]
  · refine Or.inr ⟨i, rfl, ?_⟩
    rcases hg : ps.c_parameters[i]? with _ | cp
    · refine Or.inl ⟨rfl, ?_⟩
      simp only [Parameters.analyze_return, hb, hg]
    · refine Or.inr ⟨cp, rfl, ?_⟩
      simp only [Parameters.analyze_return, hb, hg]

/-! ## Concrete scenarios -/

/-- Scenario A environment: type 0 is a C array of type 1, type 1 an unsigned
integer; arrays convert as pointers, integers directly. -/
def envA : Env :=
  { library := [.CArray 1, .Fundamental .UInt],
    conversion_of := fun typ => if typ == 0 then .Pointer else .Direct,
    rust_type_str := fun _ => "u32",
    can_as_return := fun _ => false,
    ref_mode_of := fun _ _ _ => .ByRef }

/-- Scenario A: `data`, a pointer-to-bytes In parameter. -/
def dataP : Parameter :=
  { name := "data", c_type := "const guint8 *", typ := 0,
    instance_parameter := false, direction := .In, nullable := false,
    transfer := .None, caller_allocates := false, is_error := false,
    scope := .None, array_length := none, closure := none, destroy := none,
    allow_none := false }

/-- Scenario A: `len`, an unsigned-integer In parameter. -/
def lenP : Parameter :=
  { dataP with name := "len", typ := 1, c_type := "guint" }

/-- A return value carrying an array-length back-link to native index 0. -/
def retP : Parameter :=
  { dataP with direction := .Return, array_length := some 0 }

/-- The result of lowering Scenario A. -/
def psA : Parameters :=
  ((analyze envA [dataP, lenP] [] false false false).toOption).getD (Parameters.new 0)

/-- A descriptor whose name makes the byte slice of `is_length` hit a
non-char-boundary index (`"猫a"` is the bytes `[231, 140, 171, 97]`; the
slice start `4 - 3 = 1` falls inside the three-byte character). -/
def badP : Parameter :=
  { dataP with name := "猫a", typ := 1 }

/-- Scenario B environment: type 0 (the callback) classifies Direct, type 1
(the user data) classifies Pointer. -/
def envB : Env :=
  { library := [.Other, .Other],
    conversion_of := fun typ => if typ == 0 then .Direct else .Pointer,
    rust_type_str := fun _ => "u32",
    can_as_return := fun _ => false,
    ref_mode_of := fun _ _ _ => .ByRef }

/-- Scenario B: the `callback` parameter. -/
def cbP : Parameter :=
  { dataP with name := "callback", typ := 0, c_type := "GAsyncReadyCallback" }

/-- Scenario B: the `user_data` parameter. -/
def udP : Parameter :=
  { dataP with name := "user_data", typ := 1, c_type := "gpointer" }

/-- Scenario B lowered asynchronously. -/
def psB : Parameters :=
  ((analyze envB [cbP, udP] [] false true false).toOption).getD (Parameters.new 0)

/-- Scenario B lowered synchronously (the async flag off). -/
def psBsync : Parameters :=
  ((analyze envB [cbP, udP] [] false false false).toOption).getD (Parameters.new 0)

/-- Scenario C environment: everything classifies Scalar. -/
def envC : Env :=
  { library := [.Fundamental .Boolean],
    conversion_of := fun _ => .Scalar,
    rust_type_str := fun _ => "bool",
    can_as_return := fun _ => false,
    ref_mode_of := fun _ _ _ => .None }

/-- Scenario C: a Scalar parameter declared with transfer = full and
caller-allocates = true. -/
def scP : Parameter :=
  { dataP with name := "flag", typ := 0, c_type := "gboolean", transfer := .Full, caller_allocates := true }

/-- Scenario C lowered. -/
def psC : Parameters :=
  ((analyze envC [scP] [] false false false).toOption).getD (Parameters.new 0)

/-- Scenario D environment: type 0 is a non-final class classifying as
Pointer. -/
def envD : Env :=
  { library := [.Class false],
    conversion_of := fun _ => .Pointer,
    rust_type_str := fun _ => "Widget",
    can_as_return := fun _ => false,
    ref_mode_of := fun _ _ _ => .ByRef }

/-- Scenario D: a nullable, non-receiver parameter of the non-final class
type. -/
def objP : Parameter :=
  { dataP with name := "widget", typ := 0, c_type := "GtkWidget *", nullable := true }

/-- Scenario D lowered. -/
def psD : Parameters :=
  ((analyze envD [objP] [] false false false).toOption).getD (Parameters.new 0)

/-- Scenario E: Scenario A with length detection disabled. -/
def psE : Parameters :=
  ((analyze envA [dataP, lenP] [] true false false).toOption).getD (Parameters.new 0)

/-! ## The claims -/

/-- Claim C3: for every input on which the pass completes, the native
parameter list is 1:1 with the input descriptor list, whatever the
configuration and flags. -/
theorem claim_C3 (env : Env) (fps : List Parameter)
    (cfg : List ConfigFunction) (d a t : Bool) (ps : Parameters)
    (h : analyze env fps cfg d a t = .ok ps) :
    ps.c_parameters.length = fps.length := by
  rw [analyze] at h
  obtain ⟨cs, rs, ts, hc, -, -, hlen, -, -⟩ :=
    analyze_loop_frame env cfg d a t fps fps 0 (Parameters.new fps.length) ps h
  rw [hc]
  simpa [Parameters.new] using hlen

/-- Witness for C3 at Scenario A. -/
theorem claim_C3_witness :
    analyze envA [dataP, lenP] [] false false false = .ok psA ∧
    psA.c_parameters.length = 2 :=
  ⟨by rfl, claim_C3 envA [dataP, lenP] [] false false false psA (by rfl)⟩

/-- Claim C4: in every completed analysis, and still after the
`analyze_return` post-pass, each transformation's native index is a valid
index into the native list, and each present surface index is a valid index
into the surface list. -/
theorem claim_C4 (env : Env) (fps : List Parameter)
    (cfg : List ConfigFunction) (d a t : Bool) (ps : Parameters)
    (ret : Option Parameter)
    (h : analyze env fps cfg d a t = .ok ps) :
    (∀ tr ∈ ps.transformations, tr.ind_c < ps.c_parameters.length ∧
      ∀ ir, tr.ind_rust = some ir → ir < ps.rust_parameters.length) ∧
    (∀ tr ∈ (ps.analyze_return env ret).transformations,
      tr.ind_c < (ps.analyze_return env ret).c_parameters.length ∧
      ∀ ir, tr.ind_rust = some ir →
        ir < (ps.analyze_return env ret).rust_parameters.length) := by
  rw [analyze] at h
  have hmain := analyze_loop_inv env cfg d a t fps fps 0 (Parameters.new fps.length)
    ps h (by simp [Parameters.new])
  refine ⟨hmain, ?_⟩
  rcases analyze_return_spec env ps ret with ⟨-, hid⟩ | ⟨i, -, ⟨-, hid⟩ | ⟨cp, hg, hap⟩⟩
  · rw [hid]
    exact hmain
  · rw [hid]
    exact hmain
  · rw [hap]
    intro tr htr
    simp only [List.mem_append, List.mem_singleton] at htr
    rcases htr with htr | rfl
    · exact hmain tr htr
    · have hi : i < ps.c_parameters.length := (List.getElem?_eq_some.1 hg).1
      exact ⟨hi, fun ir hir => Option.noConfusion hir⟩

/-- Witness for C4 at Scenario A with a return value back-linking native
index 0. -/
theorem claim_C4_witness :
    analyze envA [dataP, lenP] [] false false false = .ok psA ∧
    ((∀ tr ∈ psA.transformations, tr.ind_c < psA.c_parameters.length ∧
      ∀ ir, tr.ind_rust = some ir → ir < psA.rust_parameters.length) ∧
    (∀ tr ∈ (psA.analyze_return envA (some retP)).transformations,
      tr.ind_c < (psA.analyze_return envA (some retP)).c_parameters.length ∧
      ∀ ir, tr.ind_rust = some ir →
        ir < (psA.analyze_return envA (some retP)).rust_parameters.length)) :=
  ⟨by rfl, claim_C4 envA [dataP, lenP] [] false false false psA
    (some retP) (by rfl)⟩

/-- Claim C9: the return-value post-pass is the identity when there is no
return value, no array-length back-link, or an out-of-range back-link; for a
valid back-link it appends exactly one length-link step at that native index
with no surface index. -/
theorem claim_C9 (env : Env) (ps : Parameters) (ret : Option Parameter) :
    (ret.bind (fun r => r.array_length) = none →
      ps.analyze_return env ret = ps) ∧
    (∀ i, ret.bind (fun r => r.array_length) = some i →
      (ps.c_parameters[i]? = none → ps.analyze_return env ret = ps) ∧
      (∀ cp, ps.c_parameters[i]? = some cp →
        ps.analyze_return env ret =
          ⟨ps.rust_parameters, ps.c_parameters, ps.transformations ++
            [⟨i, none, get_length_type env "" cp.name cp.typ⟩]⟩ ∧
        (get_length_type env "" cp.name cp.typ).is_length_step = true)) := by
  constructor
  · intro hb
    simp only [Parameters.analyze_return, hb]
  · intro i hb
    constructor
    · intro hg
      simp only [Parameters.analyze_return, hb, hg]
    · intro cp hg
      simp only [Parameters.analyze_return, hb, hg]
      trivial

/-- Witness for C9: the skip branch (no back-link) and the append branch
(valid back-link to index 0) at Scenario A. -/
theorem claim_C9_witness :
    (Option.bind (some dataP) (fun r => r.array_length) = none →
      psA.analyze_return envA (some dataP) = psA) ∧
    (Option.bind (some retP) (fun r => r.array_length) = some 0 →
      ∀ cp, psA.c_parameters[0]? = some cp →
        psA.analyze_return envA (some retP) =
          ⟨psA.rust_parameters, psA.c_parameters, psA.transformations ++
            [⟨0, none, get_length_type envA "" cp.name cp.typ⟩]⟩ ∧
        (get_length_type envA "" cp.name cp.typ).is_length_step = true) :=
  ⟨(claim_C9 envA psA (some dataP)).1,
   fun hb cp hg => ((claim_C9 envA psA (some retP)).2 0 hb).2 cp hg⟩

/-- Claim C10: the special-function generator writes nothing and reports
`false` for an unregistered function; for a registered one (necessarily a
`StaticStringify` entry) it writes output and reports `true`. -/
theorem claim_C10 (w : List String) (env : CodegenEnv) (function : FnInfo)
    (specials : SpecialInfos) (scope_version : Option Nat) :
    (specials.get function.glib_name = none →
      generate w env function specials scope_version = (w, false)) ∧
    (∀ special, specials.get function.glib_name = some special →
      special.type_ = .StaticStringify ∧
      (generate w env function specials scope_version).2 = true ∧
      ∃ written, written ≠ [] ∧
        (generate w env function specials scope_version).1 = w ++ written) := by
  constructor
  · intro hg
    simp only [generate, hg]
  · intro special hg
    obtain ⟨ft⟩ := special
    cases ft
    refine ⟨rfl, ?_, ?_⟩
    · simp only [generate, hg]
    · simp only [generate, hg]
      refine ⟨"\n" :: (env.version_condition_lines function.version scope_version ++
        [static_to_str_body (match function.visibility with
          | .Public => "pub "
          | _ => "") function.codegen_name_str
          env.main_sys_crate_name_str function.glib_name ++ "\n"]), by simp, ?_⟩
      rw [generate_static_to_str]
      simp

/-- Witness for C10: an empty table yields no output and `false`; a
registered stringify function yields `true`. -/
theorem claim_C10_witness :
    (SpecialInfos.get ⟨[]⟩ "gtk_thing" = none →
      generate [] ⟨"gtk_sys", fun _ _ => []⟩ ⟨"gtk_thing", "thing", .Public, none⟩
        ⟨[]⟩ none = ([], false)) ∧
    (SpecialInfos.get ⟨[("gtk_thing", ⟨.StaticStringify⟩)]⟩ "gtk_thing" =
        some ⟨.StaticStringify⟩ →
      (generate [] ⟨"gtk_sys", fun _ _ => []⟩ ⟨"gtk_thing", "thing", .Public, none⟩
        ⟨[("gtk_thing", ⟨.StaticStringify⟩)]⟩ none).2 = true) :=
  ⟨(claim_C10 [] ⟨"gtk_sys", fun _ _ => []⟩ ⟨"gtk_thing", "thing", .Public, none⟩
      ⟨[]⟩ none).1,
   fun hg => ((claim_C10 [] ⟨"gtk_sys", fun _ _ => []⟩
      ⟨"gtk_thing", "thing", .Public, none⟩
      ⟨[("gtk_thing", ⟨.StaticStringify⟩)]⟩ none).2 ⟨.StaticStringify⟩ hg).2.1⟩

/-- Claim C5: with the async flag, `user_data`/`...data`-named parameters are
excluded from the surface list, a `callback` parameter with a Direct/Unknown
primary step gets the present-value wrap, and a `user_data` parameter with a
Pointer primary step gets the raw-owned-pointer conversion; without the
async flag no such substitution occurs and a synchronous In parameter that
is not folded stays on the surface list. -/
theorem claim_C5 (env : Env) (cfg : List ConfigFunction) (d t : Bool)
    (fps : List Parameter) (ps pssync : Parameters) :
    (analyze env fps cfg d true t = .ok ps →
      (∀ pos par, fps[pos]? = some par → async_param_to_remove par.name = true →
        ∀ rp ∈ ps.rust_parameters, rp.ind_c ≠ pos) ∧
      (∀ pos par, fps[pos]? = some par → par.name = "callback" →
        (env.conversion_of (override_string_type_parameter par.typ
            (matched_parameters cfg (param_rust_name par))) = .Direct ∨
         env.conversion_of (override_string_type_parameter par.typ
            (matched_parameters cfg (param_rust_name par))) = .Unknown) →
        ∀ tr ∈ ps.transformations, tr.ind_c = pos →
          tr.transformation_type.is_length_step = false →
          tr.transformation_type = .ToSome "callback") ∧
      (∀ pos par, fps[pos]? = some par → par.name = "user_data" →
        env.conversion_of (override_string_type_parameter par.typ
            (matched_parameters cfg (param_rust_name par))) = .Pointer →
        ∀ tr ∈ ps.transformations, tr.ind_c = pos →
          tr.transformation_type.is_length_step = false →
          tr.transformation_type = .IntoRaw "user_data")) ∧
    (analyze env fps cfg d false t = .ok pssync →
      (∀ tr ∈ pssync.transformations, ∀ s,
        tr.transformation_type ≠ .ToSome s ∧ tr.transformation_type ≠ .IntoRaw s) ∧
      (∀ pos par, fps[pos]? = some par → par.direction = .In →
        resolve_array_name env (matched_parameters cfg (param_rust_name par))
          d fps pos par = .ok none →
        ∃ rp ∈ pssync.rust_parameters, rp.ind_c = pos)) := by
  constructor
  · intro h1
    refine ⟨?_, ?_, ?_⟩
    · intro pos par hpar hrm rp hrp heq
      obtain ⟨rl, out, hout, -, -, hfwd, -⟩ :=
        analyze_at env cfg d true t fps ps pos par h1 hpar
      have hsome := hfwd rp hrp heq
      rw [analyze_param_async_removes env cfg d t fps pos par pos rl out hout hrm]
        at hsome
      exact Option.noConfusion hsome
    · intro pos par hpar hname hc tr htr hind hnl
      obtain ⟨rl, out, hout, -, hfil, -, -⟩ :=
        analyze_at env cfg d true t fps ps pos par h1 hpar
      have htr' : tr ∈ out.length_trans ++ [out.primary] := by
        rw [← hfil]
        exact List.mem_filter.2 ⟨htr, by simp [hind]⟩
      obtain ⟨hlt, -, -, -, -⟩ :=
        analyze_param_shape env cfg d true t fps pos par pos rl out hout
      rcases List.mem_append.1 htr' with hm | hm
      · rw [(hlt tr hm).2.2] at hnl
        exact Bool.noConfusion hnl
      · rcases List.mem_singleton.1 hm with rfl
        have hn : param_rust_name par = "callback" := by
          rw [param_rust_name, hname]
          split <;> rfl
        exact analyze_param_async_callback env cfg d t fps pos par pos rl out
          hout hn hc
    · intro pos par hpar hname hc tr htr hind hnl
      obtain ⟨rl, out, hout, -, hfil, -, -⟩ :=
        analyze_at env cfg d true t fps ps pos par h1 hpar
      have htr' : tr ∈ out.length_trans ++ [out.primary] := by
        rw [← hfil]
        exact List.mem_filter.2 ⟨htr, by simp [hind]⟩
      obtain ⟨hlt, -, -, -, -⟩ :=
        analyze_param_shape env cfg d true t fps pos par pos rl out hout
      rcases List.mem_append.1 htr' with hm | hm
      · rw [(hlt tr hm).2.2] at hnl
        exact Bool.noConfusion hnl
      · rcases List.mem_singleton.1 hm with rfl
        have hn : param_rust_name par = "user_data" := by
          rw [param_rust_name, hname]
          split <;> rfl
        exact analyze_param_async_user_data env cfg d t fps pos par pos rl out
          hout hn hc
  · intro h2
    constructor
    · rw [analyze] at h2
      exact analyze_loop_no_subst env cfg d t fps fps 0 (Parameters.new fps.length)
        pssync h2 (by simp [Parameters.new])
    · intro pos par hpar hdir hres
      obtain ⟨rl, out, hout, -, -, -, hback⟩ :=
        analyze_at env cfg d false t fps pssync pos par h2 hpar
      obtain ⟨-, hsome⟩ := analyze_param_not_folded env cfg d false t fps pos par
        pos rl out hout hres
      have hrp := hsome rfl hdir
      obtain ⟨-, -, -, -, hru⟩ :=
        analyze_param_shape env cfg d false t fps pos par pos rl out hout
      exact ⟨_, hback _ hrp, hru _ hrp⟩

/-- Witness for C5 at Scenario B, in both async modes. -/
theorem claim_C5_witness :
    analyze envB [cbP, udP] [] false true false = .ok psB ∧
    (∀ rp ∈ psB.rust_parameters, rp.ind_c ≠ 1) ∧
    (∀ tr ∈ psB.transformations, tr.ind_c = 0 →
      tr.transformation_type.is_length_step = false →
      tr.transformation_type = .ToSome "callback") ∧
    (∀ tr ∈ psB.transformations, tr.ind_c = 1 →
      tr.transformation_type.is_length_step = false →
      tr.transformation_type = .IntoRaw "user_data") ∧
    analyze envB [cbP, udP] [] false false false = .ok psBsync ∧
    (∀ tr ∈ psBsync.transformations, ∀ s,
      tr.transformation_type ≠ .ToSome s ∧ tr.transformation_type ≠ .IntoRaw s) ∧
    (∃ rp ∈ psBsync.rust_parameters, rp.ind_c = 1) := by
  have h5 := claim_C5 envB [] false false [cbP, udP] psB psBsync
  refine ⟨by rfl, ?_, ?_, ?_, by rfl, ?_, ?_⟩
  · exact (h5.1 (by rfl)).1 1 udP (by rfl) (by rfl)
  · exact (h5.1 (by rfl)).2.1 0 cbP (by rfl) (by rfl) (Or.inl (by rfl))
  · exact (h5.1 (by rfl)).2.2 1 udP (by rfl) (by rfl) (by rfl)
  · exact (h5.2 (by rfl)).1
  · exact (h5.2 (by rfl)).2 1 udP (by rfl) (by rfl) (by rfl)

/-- Claim C6: a parameter classified Direct or Scalar resolves to a native
parameter with caller-allocates false and transfer none, whatever was
declared. -/
theorem claim_C6 (env : Env) (fps : List Parameter) (cfg : List ConfigFunction)
    (d a t : Bool) (ps : Parameters) (pos : Nat) (par : Parameter)
    (h : analyze env fps cfg d a t = .ok ps)
    (hpar : fps[pos]? = some par)
    (hc : env.conversion_of (override_string_type_parameter par.typ
        (matched_parameters cfg (param_rust_name par))) = .Direct ∨
      env.conversion_of (override_string_type_parameter par.typ
        (matched_parameters cfg (param_rust_name par))) = .Scalar) :
    ∃ cp, ps.c_parameters[pos]? = some cp ∧
      cp.caller_allocates = false ∧ cp.transfer = .None := by
  obtain ⟨rl, out, hout, hcp, -, -, -⟩ := analyze_at env cfg d a t fps ps pos par h hpar
  obtain ⟨h1, h2⟩ := analyze_param_scalar_erases env cfg d a t fps pos par pos rl
    out hout hc
  exact ⟨out.c_par, hcp, h1, h2⟩

/-- Witness for C6 at Scenario C (declared transfer = full and
caller-allocates = true). -/
theorem claim_C6_witness :
    analyze envC [scP] [] false false false = .ok psC ∧
    scP.transfer = .Full ∧ scP.caller_allocates = true ∧
    ∃ cp, psC.c_parameters[0]? = some cp ∧
      cp.caller_allocates = false ∧ cp.transfer = .None :=
  ⟨by rfl, by rfl, by rfl,
   claim_C6 envC [scP] [] false false false psC 0 scP (by rfl) (by rfl)
     (Or.inr (by rfl))⟩

/-- Claim C7: a Pointer primary step carries the `.as_ref()` dereference
suffix exactly when the parameter is nullable (after configuration
override), is not the instance receiver, and its type is an interface or
class that is not final; in that situation with the type not final the
step's nullability flag is true. -/
theorem claim_C7 (env : Env) (fps : List Parameter) (cfg : List ConfigFunction)
    (d a t : Bool) (ps : Parameters) (pos : Nat) (par : Parameter)
    (h : analyze env fps cfg d a t = .ok ps)
    (hpar : fps[pos]? = some par) :
    ∀ tr ∈ ps.transformations, tr.ind_c = pos →
      ∀ n ip trf rm ex ett pc it nb,
        tr.transformation_type = .ToGlibPointer n ip trf rm ex ett pc it nb →
        (ex = ".as_ref()" ↔
          (par.instance_parameter = false ∧
           resolved_nullable (matched_parameters cfg (param_rust_name par)) par = true ∧
           ((env.type_ par.typ).is_interface = true ∨
             (env.type_ par.typ).is_class = true) ∧
           (env.type_ par.typ).is_final_type = false)) ∧
        ((par.instance_parameter = false ∧
          resolved_nullable (matched_parameters cfg (param_rust_name par)) par = true ∧
          ((env.type_ par.typ).is_interface = true ∨
            (env.type_ par.typ).is_class = true)) →
          nb = true) := by
  obtain ⟨rl, out, hout, -, hfil, -, -⟩ := analyze_at env cfg d a t fps ps pos par h hpar
  intro tr htr hind n ip trf rm ex ett pc it nb htt
  have htr' : tr ∈ out.length_trans ++ [out.primary] := by
    rw [← hfil]
    exact List.mem_filter.2 ⟨htr, by simp [hind]⟩
  obtain ⟨hlt, -, -, -, -⟩ := analyze_param_shape env cfg d a t fps pos par pos rl out hout
  rcases List.mem_append.1 htr' with hm | hm
  · have := (hlt tr hm).2.2
    rw [htt] at this
    exact absurd this (by simp [TransformationType.is_length_step])
  · rcases List.mem_singleton.1 hm with rfl
    exact analyze_param_pointer_extra env cfg d a t fps pos par pos rl out hout
      n ip trf rm ex ett pc it nb htt

/-- Witness for C7 at Scenario D (nullable, non-final class type,
non-receiver). -/
theorem claim_C7_witness :
    analyze envD [objP] [] false false false = .ok psD ∧
    (∀ tr ∈ psD.transformations, tr.ind_c = 0 →
      ∀ n ip trf rm ex ett pc it nb,
        tr.transformation_type = .ToGlibPointer n ip trf rm ex ett pc it nb →
        (ex = ".as_ref()" ↔
          (objP.instance_parameter = false ∧
           resolved_nullable (matched_parameters [] (param_rust_name objP)) objP = true ∧
           ((envD.type_ objP.typ).is_interface = true ∨
             (envD.type_ objP.typ).is_class = true) ∧
           (envD.type_ objP.typ).is_final_type = false)) ∧
        ((objP.instance_parameter = false ∧
          resolved_nullable (matched_parameters [] (param_rust_name objP)) objP = true ∧
          ((envD.type_ objP.typ).is_interface = true ∨
            (envD.type_ objP.typ).is_class = true)) →
          nb = true)) :=
  ⟨by rfl, claim_C7 envD [objP] [] false false false psD 0 objP (by rfl) (by rfl)⟩

/-- Claim C8: array-name resolution priority — a configured `length_of` wins,
then a descriptor back-link, and the naming heuristic runs only when length
detection is enabled; with detection disabled and neither source present, a
heuristically-matching parameter stays on the surface list with its ordinary
(non-length, non-async) transformation. -/
theorem claim_C8 :
    (∀ (env : Env) (cp : List ConfigParameter) (d : Bool) (fps : List Parameter)
        (pos : Nat) (par : Parameter) (a0 : String),
      (cp.filterMap (fun p => p.length_of)).head? = some a0 →
      resolve_array_name env cp d fps pos par = .ok (some a0)) ∧
    (∀ (env : Env) (cp : List ConfigParameter) (d : Bool) (fps : List Parameter)
        (pos : Nat) (par : Parameter) (a0 : String),
      (cp.filterMap (fun p => p.length_of)).head? = none →
      array_lengths_get fps pos = some a0 →
      resolve_array_name env cp d fps pos par = .ok (some a0)) ∧
    (∀ (env : Env) (cp : List ConfigParameter) (fps : List Parameter)
        (pos : Nat) (par : Parameter),
      (cp.filterMap (fun p => p.length_of)).head? = none →
      array_lengths_get fps pos = none →
      resolve_array_name env cp true fps pos par = .ok none) ∧
    (∀ (env : Env) (cfg : List ConfigFunction) (t : Bool) (fps : List Parameter)
        (ps : Parameters) (pos : Nat) (par : Parameter),
      analyze env fps cfg true false t = .ok ps →
      fps[pos]? = some par →
      ((matched_parameters cfg (param_rust_name par)).filterMap
        (fun p => p.length_of)).head? = none →
      array_lengths_get fps pos = none →
      par.direction = .In →
      (∃ rp ∈ ps.rust_parameters, rp.ind_c = pos) ∧
      (∀ tr ∈ ps.transformations, tr.ind_c = pos →
        tr.transformation_type.is_length_step = false ∧
        (∀ s, tr.transformation_type ≠ .ToSome s ∧
          tr.transformation_type ≠ .IntoRaw s))) := by
  refine ⟨?_, ?_, ?_, ?_⟩
  · intro env cp d fps pos par a0 hhead
    simp only [resolve_array_name, hhead]
  · intro env cp d fps pos par a0 hhead hback
    simp only [resolve_array_name, hhead, hback]
  · intro env cp fps pos par hhead hback
    simp only [resolve_array_name, hhead, hback, Bool.not_true, Bool.false_eq_true,
      if_false]
  · intro env cfg t fps ps pos par h hpar hhead hback hdir
    have hres : resolve_array_name env (matched_parameters cfg (param_rust_name par))
        true fps pos par = .ok none := by
      simp only [resolve_array_name, hhead, hback, Bool.not_true, Bool.false_eq_true,
        if_false]
    obtain ⟨rl, out, hout, -, hfil, -, hback'⟩ :=
      analyze_at env cfg true false t fps ps pos par h hpar
    obtain ⟨hemp, hsome⟩ := analyze_param_not_folded env cfg true false t fps pos par
      pos rl out hout hres
    have hrp := hsome rfl hdir
    obtain ⟨-, -, hpl, -, hru⟩ :=
      analyze_param_shape env cfg true false t fps pos par pos rl out hout
    constructor
    · exact ⟨_, hback' _ hrp, hru _ hrp⟩
    · intro tr htr hind
      have htr' : tr ∈ out.length_trans ++ [out.primary] := by
        rw [← hfil]
        exact List.mem_filter.2 ⟨htr, by simp [hind]⟩
      rw [hemp, List.nil_append] at htr'
      rcases List.mem_singleton.1 htr' with rfl
      exact ⟨hpl, analyze_param_no_async_subst env cfg true t fps pos par pos rl
        out hout⟩

/-- Witness for C8: the three resolution priorities on concrete
configurations, and Scenario E (detection disabled, heuristic-matching `len`
stays on the surface list). -/
theorem claim_C8_witness :
    resolve_array_name envA [⟨"len", false, none, some "data", none⟩] true
      [dataP, lenP] 1 lenP = .ok (some "data") ∧
    resolve_array_name envA [] true [{ dataP with array_length := some 1 }, lenP]
      1 lenP = .ok (some "data") ∧
    resolve_array_name envA [] true [dataP, lenP] 1 lenP = .ok none ∧
    analyze envA [dataP, lenP] [] true false false = .ok psE ∧
    ((∃ rp ∈ psE.rust_parameters, rp.ind_c = 1) ∧
     (∀ tr ∈ psE.transformations, tr.ind_c = 1 →
        tr.transformation_type.is_length_step = false ∧
        (∀ s, tr.transformation_type ≠ .ToSome s ∧
          tr.transformation_type ≠ .IntoRaw s))) := by
  refine ⟨?_, ?_, ?_, by rfl, ?_⟩
  · exact claim_C8.1 envA [⟨"len", false, none, some "data", none⟩] true
      [dataP, lenP] 1 lenP "data" (by rfl)
  · exact claim_C8.2.1 envA [] true [{ dataP with array_length := some 1 }, lenP]
      1 lenP "data" (by rfl) (by rfl)
  · exact claim_C8.2.2.1 envA [] [dataP, lenP] 1 lenP (by rfl) (by rfl)
  · exact claim_C8.2.2.2 envA [] false [dataP, lenP] psE 1 lenP (by rfl) (by rfl)
      (by rfl) (by rfl) (by rfl)

/-- Counterexample to claim C1 as stated: on Scenario A the folded `len`
parameter yields its length-link step AND its ordinary primary conversion
step at native index 1 (the loop never skips the primary push, lines
298-324), so the transformation list has three entries, not the claimed
two, and a primary (non-length) step does sit at the folded index. -/
theorem claim_C1_counterexample :
    analyze envA [dataP, lenP] [] false false false = .ok psA ∧
    psA.rust_parameters = [⟨0, "data", 0, false⟩] ∧
    psA.transformations.length = 3 ∧
    ¬ psA.transformations.length = 2 ∧
    ((psA.transformations.filter (fun tr => tr.ind_c == 1)).filter
      (fun tr => !tr.transformation_type.is_length_step)).length = 1 :=
  ⟨by rfl, by rfl, by rfl, by decide, by rfl⟩

/-- Claim C1 (amended): a parameter resolved as a length parameter is removed
from the surface list and produces exactly one length-link step at its
native index, and in addition its ordinary primary conversion step is still
emitted at that index; every step at that index carries no surface index. -/
theorem claim_C1 (env : Env) (fps : List Parameter) (cfg : List ConfigFunction)
    (d a t : Bool) (ps : Parameters) (pos : Nat) (par : Parameter) (an : String)
    (h : analyze env fps cfg d a t = .ok ps)
    (hpar : fps[pos]? = some par)
    (hres : resolve_array_name env (matched_parameters cfg (param_rust_name par))
      d fps pos par = .ok (some an)) :
    (∀ rp ∈ ps.rust_parameters, rp.ind_c ≠ pos) ∧
    ((ps.transformations.filter (fun tr => tr.ind_c == pos)).filter
      (fun tr => tr.transformation_type.is_length_step)).length = 1 ∧
    ((ps.transformations.filter (fun tr => tr.ind_c == pos)).filter
      (fun tr => !tr.transformation_type.is_length_step)).length = 1 ∧
    (∀ tr ∈ ps.transformations, tr.ind_c = pos → tr.ind_rust = none) := by
  obtain ⟨rl, out, hout, -, hfil, hfwd, -⟩ :=
    analyze_at env cfg d a t fps ps pos par h hpar
  obtain ⟨hlt1, hnone, hirnone⟩ := analyze_param_folded env cfg d a t fps pos par
    pos rl out an hout hres
  obtain ⟨hlt, -, hpl, -, -⟩ := analyze_param_shape env cfg d a t fps pos par
    pos rl out hout
  have hL : (get_length_type env (mangle_keywords an) par.name
      (override_string_type_parameter par.typ
        (matched_parameters cfg (param_rust_name par)))).is_length_step = true := rfl
  refine ⟨?_, ?_, ?_, ?_⟩
  · intro rp hrp heq
    have := hfwd rp hrp heq
    rw [hnone] at this
    exact Option.noConfusion this
  · rw [hfil, hlt1, List.filter_append]
    simp [hpl, hL]
  · rw [hfil, hlt1, List.filter_append]
    simp [hpl, hL]
  · intro tr htr hind
    have htr' : tr ∈ out.length_trans ++ [out.primary] := by
      rw [← hfil]
      exact List.mem_filter.2 ⟨htr, by simp [hind]⟩
    rcases List.mem_append.1 htr' with hm | hm
    · exact (hlt tr hm).2.1
    · rcases List.mem_singleton.1 hm with rfl
      exact hirnone

/-- Witness for C1 (amended) at Scenario A. -/
theorem claim_C1_witness :
    analyze envA [dataP, lenP] [] false false false = .ok psA ∧
    ((∀ rp ∈ psA.rust_parameters, rp.ind_c ≠ 1) ∧
     ((psA.transformations.filter (fun tr => tr.ind_c == 1)).filter
       (fun tr => tr.transformation_type.is_length_step)).length = 1 ∧
     ((psA.transformations.filter (fun tr => tr.ind_c == 1)).filter
       (fun tr => !tr.transformation_type.is_length_step)).length = 1 ∧
     (∀ tr ∈ psA.transformations, tr.ind_c = 1 → tr.ind_rust = none)) :=
  ⟨by rfl, claim_C1 envA [dataP, lenP] [] false false false psA 1 lenP "data"
    (by rfl) (by rfl) (by rfl)⟩

/-- Claim C2 fails on the code: `is_length` slices the parameter name by raw
byte index (`&par.name[len - 3..len]`), which panics when `len - 3` is not a
char boundary; with the descriptor named `"猫a"` (direction In, length
detection enabled) the whole pass aborts instead of returning a
ParameterSet. -/
theorem claim_C2_panics :
    analyze envA [badP] [] false false false =
      .error "byte index is not a char boundary" := by
  rfl
